/-
Verification of the gatot-kaca workflow engine against its specification.

Shallow embedding of the Go sources:
  * wordflow/flow.go            — Flow, NewFlow, Flow.Run
  * workflow (RetryNode)        — RetryNode.Execute
  * workflow/parallel_node.go   — ParallelNode.Execute
  * wordflow balancing node     — BalancingNode.Execute (revision with the
                                  non-positive-total-weight round-robin fallback)
  * agent/tools/tool.go         — Manager.ExecuteTool, Manager.GetCallCount
  * integration/agent_model.go  — AgentModel.processToolCommands

Conventions: a Go `(string, error)` return value is a `String × Option String`
(the error rendered as its `Error()` text, `none` meaning `nil`); the
`context.Context` argument is threaded through unchanged by all the code under
study and is omitted; Go maps become (partial or defaulted) functions.
-/
import Mathlib

namespace GK

/-- A workflow node (wordflow/node.go): `Execute(ctx, input) -> (string, error)`.
The context is omitted (the engine only passes it through). -/
def Node : Type := String → String × Option String

/-- Flow (wordflow/flow.go): an ordered pipeline of nodes. -/
structure Flow where
  Nodes : List Node

/-- `NewFlow` (wordflow/flow.go). -/
def NewFlow (nodes : List Node) : Flow := ⟨nodes⟩

/-- The loop body of `Flow.Run`: thread the current input through the nodes;
on the first error return `("", err)` (the Go code overwrites `currentInput`
with the failing node's result but returns the empty string). -/
def runNodes : List Node → String → String × Option String
  | [], cur => (cur, none)
  | n :: rest, cur =>
    match n cur with
    | (out, none) => runNodes rest out
    | (_, some e) => ("", some e)

/-- `Flow.Run` (wordflow/flow.go, lines 23–33). -/
def Flow.Run (f : Flow) (initialInput : String) : String × Option String :=
  runNodes f.Nodes initialInput

/-- RetryNode (workflow retry node).  The wrapped node is modelled
observationally as a function of the attempt index (0-based invocation
counter) and the input: a Go `Node` value may be stateful across calls, so the
`i`-th invocation with the same input may give a different result.  The fixed
inter-attempt `Delay` only suspends the calling goroutine and is omitted. -/
structure RetryNode where
  Node : Nat → String → String × Option String
  MaxRetries : Nat

/-- The retry loop of `RetryNode.Execute`: `attempt` is the index of the next
invocation, `remaining` how many attempts are still allowed.  Returns the
result together with the number of invocations actually performed.  The
`remaining = 0` branch is never reached from `RetryNode.Execute`. -/
def retryGo (node : Nat → String → String × Option String) (input : String) :
    Nat → Nat → (String × Option String) × Nat
  | _, 0 => (("", none), 0)
  | attempt, 1 =>
    match node attempt input with
    | (out, none) => ((out, none), 1)
    | (_, some e) =>
      (("", some ("retry node: failed after " ++ toString (attempt + 1) ++
        " attempts, last error: " ++ e)), 1)
  | attempt, k + 2 =>
    match node attempt input with
    | (out, none) => ((out, none), 1)
    | (_, some _) =>
      let r := retryGo node input (attempt + 1) (k + 1)
      (r.1, r.2 + 1)

/-- `RetryNode.Execute`: up to `MaxRetries+1` total attempts; on first success
return the wrapped node's output; if all attempts fail, return the wrapping
error `retry node: failed after <MaxRetries+1> attempts, last error: <last>`.
The second component counts the invocations of the wrapped node. -/
def RetryNode.Execute (rn : RetryNode) (input : String) :
    (String × Option String) × Nat :=
  retryGo rn.Node input 0 (rn.MaxRetries + 1)

/-- ParallelNode (workflow/parallel_node.go).  `MergeFunc = none` means no
custom merge function was configured. -/
structure ParallelNode where
  Nodes : List Node
  MergeFunc : Option (List String → String)
  FailFast : Bool

/-- The fail-fast error scan: first non-nil error in index order. -/
def firstSomeErr : List (Option String) → Option String
  | [] => none
  | none :: rest => firstSomeErr rest
  | some e :: _ => some e

/-- The merge step of `ParallelNode.Execute`: custom merge function if
configured, otherwise join with newline separators. -/
def mergeResults (pn : ParallelNode) (results : List String) :
    String × Option String :=
  match pn.MergeFunc with
  | some f => (f results, none)
  | none => (String.intercalate "\n" results, none)

/-- `ParallelNode.Execute` (workflow/parallel_node.go, lines 20–63).  Every
goroutine writes only its own `results[i]`/`errs[i]` slot and `wg.Wait()` joins
all of them before any read, so after the join the two slices are pointwise
the child results in declaration order, independent of completion order; the
embedding is therefore deterministic.  In the non-fail-fast branch child
errors are only printed as warnings. -/
def ParallelNode.Execute (pn : ParallelNode) (input : String) :
    String × Option String :=
  if pn.Nodes.isEmpty then ("", some "parallel node: no nodes provided")
  else
    let results := pn.Nodes.map (fun n => (n input).1)
    let errs := pn.Nodes.map (fun n => (n input).2)
    if pn.FailFast then
      match firstSomeErr errs with
      | some e => ("", some e)
      | none => mergeResults pn results
    else
      mergeResults pn results

/-- BalancingNode (wordflow balancing node, revision with the non-positive
total-weight fallback).  The mutable atomic `rrCounter` is passed explicitly
(as a `Nat`: the claims concern freshly constructed nodes, far below the
`uint64`/`int` wrap). -/
structure BalancingNode where
  Nodes : List Node
  Weights : List Int

/-- The weighted walk: running subtraction over the weight list, first index
whose weight exceeds the remaining draw. -/
def walkWeights : List Int → Int → Nat → Option Nat
  | [], _, _ => none
  | w :: ws, r, i => if r < w then some i else walkWeights ws (r - w) (i + 1)

/-- Index selection of `BalancingNode.Execute`.  `c` is the current value of
the round-robin counter, `draw` the value `rand.Intn(total)` would return
(consulted only in the weighted branch with positive total).  Returns the
selected index and the new counter value, or `none` when no nodes are
configured. -/
def BalancingNode.selectIndex (bn : BalancingNode) (c : Nat) (draw : Int) :
    Option (Nat × Nat) :=
  if bn.Nodes.length = 0 then none
  else if bn.Weights.length = bn.Nodes.length then
    let total : Int := bn.Weights.foldl (· + ·) 0
    if total ≤ 0 then
      -- Non-positive total weight: fall back to round-robin (counter advances).
      some (c % bn.Nodes.length, c + 1)
    else
      -- Weighted random selection; last node as safety fallback.
      some ((walkWeights bn.Weights draw 0).getD (bn.Nodes.length - 1), c)
  else
    -- Round-robin selection.
    some (c % bn.Nodes.length, c + 1)

/-- Placeholder child used by `List.getD`; selection always stays in bounds. -/
def dummyNode : Node := fun _ => ("", some "unreachable")

/-- `BalancingNode.Execute`: select one child, delegate with the original
input, return its result unchanged (plus the new counter value). -/
def BalancingNode.Execute (bn : BalancingNode) (c : Nat) (draw : Int)
    (input : String) : (String × Option String) × Nat :=
  match bn.selectIndex c draw with
  | none => (("", some "balancing node: no nodes available"), c)
  | some (i, c2) => ((bn.Nodes.getD i dummyNode) input, c2)

/-- Successive `BalancingNode` calls: thread the counter through one call per
draw, collecting the selected indices. -/
def selectRun (bn : BalancingNode) : Nat → List Int → List (Option Nat)
  | _, [] => []
  | c, d :: ds =>
    match bn.selectIndex c d with
    | none => none :: selectRun bn c ds
    | some (i, c2) => some i :: selectRun bn c2 ds

/-- A registered tool's `Execute`: input → (output, error). -/
def ToolFn : Type := String → String × Option String

/-- Tool manager (agent/tools/tool.go).  The Go `map[string]Tool` is the
partial function `tools`; the Go metrics map read with a 0 default
(`GetCallCount`) is the total function `metrics`. -/
structure Manager where
  tools : String → Option ToolFn
  metrics : String → Nat

/-- `Manager.GetCallCount` (agent/tools/tool.go, lines 110–116). -/
def Manager.GetCallCount (m : Manager) (name : String) : Nat :=
  m.metrics name

/-- `Manager.ExecuteTool` (agent/tools/tool.go, lines 64–80): not-found error
for unregistered names; on tool failure return `("", err)` without touching
the metrics; on success increment the tool's call counter and return the
output.  The resulting manager is the second component. -/
def Manager.ExecuteTool (m : Manager) (name input : String) :
    (String × Option String) × Manager :=
  match m.tools name with
  | none => (("", some ("tool not found: " ++ name)), m)
  | some tool =>
    match tool input with
    | (_, some e) => (("", some e), m)
    | (output, none) =>
      ((output, none),
        { m with metrics := fun n => if n = name then m.metrics n + 1 else m.metrics n })

/-!
Directive substitution (integration/agent_model.go, `processToolCommands`).

The Go code runs `re.ReplaceAllStringFunc` with the pattern
`(?i)CALL TOOL:\s*(\w+)\s+(.+?)(?:\n|$)` (leftmost-first semantics).  We embed
the matching of that concrete pattern directly: at a candidate position the
case-insensitive literal, then `\s*`, then `(\w+)`, then `\s+`, then the lazy
`(.+?)` up to a newline or the end of text.  `\s*` and `(\w+)` are maximal
munches (shrinking them exposes a character of the wrong class, so no other
choice can make the overall match succeed); the greedy `\s+` genuinely
backtracks, preferring the largest number of whitespace characters for which
the tail `(.+?)(?:\n|$)` can still match, which it can exactly when at least
one non-newline character follows; `(.+?)` then deterministically runs to the
first newline (consumed as the terminator) or to the end of the text.
`re.FindStringSubmatch` applied to the matched text reproduces the same two
capture groups, so the replacement callback is modelled directly on them.
-/

/-- Go regexp character class `\s` = `[\t\n\f\r ]`. -/
def isSpaceRe (c : Char) : Bool :=
  c = ' ' || c = '\t' || c = '\n' || c = '\x0c' || c = '\r'

/-- Go regexp character class `\w` = `[0-9A-Za-z_]`. -/
def isWordCh (c : Char) : Bool :=
  ('a' ≤ c && c ≤ 'z') || ('A' ≤ c && c ≤ 'Z') || ('0' ≤ c && c ≤ '9') || c = '_'

/-- `unicode.IsSpace` (the class used by `strings.TrimSpace`), on the ASCII
range: the regexp whitespace characters plus vertical tab. -/
def isSpaceGo (c : Char) : Bool :=
  isSpaceRe c || c = '\x0b'

/-- `strings.TrimSpace`: drop leading and trailing whitespace. -/
def goTrimSpace (cs : List Char) : List Char :=
  ((cs.dropWhile isSpaceGo).reverse.dropWhile isSpaceGo).reverse

/-- Case-insensitive literal match: `ps` is the pattern in lowercase; returns
the consumed original characters and the remainder. -/
def stripCI : List Char → List Char → Option (List Char × List Char)
  | [], cs => some ([], cs)
  | _ :: _, [] => none
  | p :: ps, c :: cs =>
    if c.toLower = p then
      match stripCI ps cs with
      | some (pre, rest) => some (c :: pre, rest)
      | none => none
    else none

/-- Backtracking choice of the greedy `\s+`: the largest `k` (searching
downward from the argument) with `ws[k] ≠ '\n'`, so that the remainder
`ws.drop k` starts with a character `(.+?)` can consume.  Used when the text
ends in whitespace (no non-whitespace tail). -/
def pickKDown (ws : List Char) : Nat → Option Nat
  | 0 => none
  | m + 1 =>
    if ws.getD (m + 1) ' ' ≠ '\n' then some (m + 1) else pickKDown ws m

/-- How many of the whitespace characters `ws` the greedy `\s+` consumes,
given the non-whitespace tail `t3` after them: all of them if a non-whitespace
character follows (it can then start `(.+?)`), otherwise the largest prefix
leaving a non-newline whitespace character for `(.+?)`. -/
def pickK (ws t3 : List Char) : Option Nat :=
  if t3.isEmpty then pickKDown ws (ws.length - 1) else some ws.length

/-- The lazy tail `(.+?)(?:\n|$)` on `r` (known non-empty with non-newline
head): the capture runs to the first newline, which is consumed as the
terminator if present.  Returns (capture, consumed text, remainder). -/
def lazyTail (r : List Char) : List Char × List Char × List Char :=
  let inp := r.takeWhile (fun c => c ≠ '\n')
  match r.dropWhile (fun c => c ≠ '\n') with
  | [] => (inp, inp, [])
  | c :: rest => (inp, inp ++ [c], rest)

/-- One attempt of the pattern `(?i)CALL TOOL:\s*(\w+)\s+(.+?)(?:\n|$)` at the
start of `cs`.  On success returns (tool name capture, raw input capture,
matched text, remainder of the text after the match). -/
def matchAt (cs : List Char) : Option (List Char × List Char × List Char × List Char) :=
  match stripCI "call tool:".data cs with
  | none => none
  | some (pfx, t0) =>
    let ws1 := t0.takeWhile isSpaceRe
    let t1 := t0.dropWhile isSpaceRe
    let name := t1.takeWhile isWordCh
    let t2 := t1.dropWhile isWordCh
    if name.isEmpty then none
    else
      let ws2 := t2.takeWhile isSpaceRe
      let t3 := t2.dropWhile isSpaceRe
      if ws2.isEmpty then none
      else
        match pickK ws2 t3 with
        | none => none
        | some k =>
          let (inp, consumed, rest) := lazyTail (ws2.drop k ++ t3)
          some (name, inp, pfx ++ ws1 ++ name ++ ws2.take k ++ consumed, rest)

/-- The tool-calling capability behind the replacement callback
(`Agent.CallTool` through the tool registry): `name → trimmed input → some
output` on success, `none` when the lookup or the execution fails. -/
def ToolCalls : Type := String → String → Option String

/-- The replacement callback of `processToolCommands` on one match: on success
the annotated string `Tool Output (<name>): <output>`, on failure the original
matched text. -/
def replaceDirective (tools : ToolCalls) (name inp matched : List Char) :
    List Char :=
  match tools (String.mk name) (String.mk (goTrimSpace inp)) with
  | some out => ("Tool Output (" ++ String.mk name ++ "): " ++ out).data
  | none => matched

/-- The global scan-and-replace of `re.ReplaceAllStringFunc`: successive
non-overlapping leftmost matches; text outside matches is copied verbatim.
Each step consumes at least one character (a match is at least the ten-
character literal), so fuel equal to the text length never runs out and the
zero-fuel branch (which copies the remaining text) is unreachable. -/
def ptcFuel (tools : ToolCalls) : Nat → List Char → List Char
  | 0, cs => cs
  | fuel + 1, cs =>
    match matchAt cs with
    | some (name, inp, _matched, rest) =>
      replaceDirective tools name inp _matched ++ ptcFuel tools fuel rest
    | none =>
      match cs with
      | [] => []
      | c :: rest => c :: ptcFuel tools fuel rest

/-- `AgentModel.processToolCommands` (integration/agent_model.go,
lines 47–77). -/
def processToolCommands (tools : ToolCalls) (text : String) : String :=
  String.mk (ptcFuel tools text.data.length text.data)

/-- A segment of the directive decomposition of a text: a literal character
outside any match, or one directive match with its captures and matched
text. -/
inductive Seg where
  | lit (c : Char)
  | dir (name inp matched : List Char)
deriving DecidableEq

/-- The directive decomposition: the same scan as `ptcFuel`, but recording
segments instead of substituting. -/
def scanFuel : Nat → List Char → List Seg
  | 0, cs => cs.map Seg.lit
  | fuel + 1, cs =>
    match matchAt cs with
    | some (name, inp, matched, rest) =>
      Seg.dir name inp matched :: scanFuel fuel rest
    | none =>
      match cs with
      | [] => []
      | c :: rest => Seg.lit c :: scanFuel fuel rest

/-- The directive decomposition of a text. -/
def scanSegs (text : String) : List Seg :=
  scanFuel text.data.length text.data

/-- The original text a segment stands for. -/
def Seg.orig : Seg → List Char
  | .lit c => [c]
  | .dir _ _ matched => matched

/-- What a segment becomes in the output. -/
def Seg.subst (tools : ToolCalls) : Seg → List Char
  | .lit c => [c]
  | .dir name inp matched => replaceDirective tools name inp matched

/-- Substring test (`strings.Contains`), on character lists. -/
def listStartsWith : List Char → List Char → Bool
  | _, [] => true
  | [], _ :: _ => false
  | c :: cs, p :: ps => c = p && listStartsWith cs ps

/-- Substring test (`strings.Contains`). -/
def containsSub : List Char → List Char → Bool
  | [], pat => pat.isEmpty
  | c :: t, pat => listStartsWith (c :: t) pat || containsSub t pat

/-- `strings.Contains` on strings. -/
def strContains (s pat : String) : Bool :=
  containsSub s.data pat.data

/-- Whether a segment is a directive match. -/
def segIsDir : Seg → Bool
  | .lit _ => false
  | .dir _ _ _ => true

/-- Whether a segment's directive (if any) resolves: its tool call on the
trimmed input succeeds.  Literal segments count as true. -/
def segResolves (tools : ToolCalls) : Seg → Bool
  | .lit _ => true
  | .dir name inp _ => (tools (String.mk name) (String.mk (goTrimSpace inp))).isSome

/-- Whether a segment's directive (if any) resolves with non-empty output. -/
def segResolvesNonempty (tools : ToolCalls) : Seg → Bool
  | .lit _ => true
  | .dir name inp _ =>
    match tools (String.mk name) (String.mk (goTrimSpace inp)) with
    | some out => !out.isEmpty
    | none => false

/-- Whether every directive of a segment list fails to resolve (tool lookup
or execution failure). -/
def allDirsFail (tools : ToolCalls) (segs : List Seg) : Bool :=
  segs.all (fun s => !segIsDir s || !segResolves tools s)

/-- The tool registry of the C3 counterexample: one tool `c` answering `4`
on input `1`. -/
def cexToolsC3 : ToolCalls :=
  fun n i => if n = "c" && i = "1" then some "4" else none

/-- The text of the C3 counterexample: one well-formed directive whose tool
succeeds with non-empty output, followed by a bare `CALL TOOL:` occurrence
that is not a directive of the form `CALL TOOL: <name> <input>`. -/
def cexTextC3 : String := "CALL TOOL: c 1\nCALL TOOL:"

/-- The tool registry of the spec's directive-substitution example. -/
def specExampleTools : ToolCalls := fun n i =>
  if n = "calculator" && i = "2+2" then some "4"
  else if n = "weather" && i = "Paris" then some "Sunny"
  else none

/-! ## Shared helper lemmas -/

theorem flatten_map_singleton (cs : List Char) :
    (cs.map (fun c => [c])).flatten = cs := by
  induction cs with
  | nil => rfl
  | cons c t ih => simp [ih]

theorem stripCI_spec (ps : List Char) :
    ∀ cs pre rest, stripCI ps cs = some (pre, rest) →
      pre ++ rest = cs ∧ pre.length = ps.length := by
  induction ps with
  | nil =>
    intro cs pre rest h
    simp [stripCI] at h
    simp [h.1, h.2]
  | cons p ps ih =>
    intro cs pre rest h
    cases cs with
    | nil => simp [stripCI] at h
    | cons c cs =>
      simp only [stripCI] at h
      by_cases hc : c.toLower = p
      · rw [if_pos hc] at h
        cases hs : stripCI ps cs with
        | none => rw [hs] at h; exact absurd h (by simp)
        | some pr =>
          obtain ⟨pre1, rest1⟩ := pr
          rw [hs] at h
          simp at h
          obtain ⟨hpre, hrest⟩ := h
          obtain ⟨h1, h2⟩ := ih cs pre1 rest1 hs
          subst hpre hrest
          simp [h1, h2]
      · rw [if_neg hc] at h
        exact absurd h (by simp)

theorem lazyTail_spec (r : List Char) :
    (lazyTail r).2.1 ++ (lazyTail r).2.2 = r := by
  unfold lazyTail
  cases hd : r.dropWhile (fun c => c ≠ '\n') with
  | nil =>
    simp only []
    have := List.takeWhile_append_dropWhile (l := r) (p := fun c => c ≠ '\n')
    rw [hd] at this
    simpa using this
  | cons c tl =>
    simp only []
    have := List.takeWhile_append_dropWhile (l := r) (p := fun c => c ≠ '\n')
    rw [hd] at this
    simpa [List.append_assoc] using this

theorem matchAt_spec (cs n i m rest : List Char)
    (h : matchAt cs = some (n, i, m, rest)) : m ++ rest = cs ∧ m ≠ [] := by
  unfold matchAt at h
  cases hs : stripCI "call tool:".data cs with
  | none => rw [hs] at h; exact absurd h (by simp)
  | some pr =>
    obtain ⟨pfx, t0⟩ := pr
    rw [hs] at h
    obtain ⟨ht0, hlen⟩ := stripCI_spec _ _ _ _ hs
    simp only [] at h
    by_cases hname : (List.takeWhile isWordCh (t0.dropWhile isSpaceRe)).isEmpty
    · rw [if_pos hname] at h; exact absurd h (by simp)
    · rw [if_neg hname] at h
      by_cases hws2 : (List.takeWhile isSpaceRe
          ((t0.dropWhile isSpaceRe).dropWhile isWordCh)).isEmpty
      · rw [if_pos hws2] at h; exact absurd h (by simp)
      · rw [if_neg hws2] at h
        cases hk : pickK (List.takeWhile isSpaceRe
            ((t0.dropWhile isSpaceRe).dropWhile isWordCh))
            (List.dropWhile isSpaceRe
            ((t0.dropWhile isSpaceRe).dropWhile isWordCh)) with
        | none => rw [hk] at h; exact absurd h (by simp)
        | some k =>
          rw [hk] at h
          set ws2 := List.takeWhile isSpaceRe
            ((t0.dropWhile isSpaceRe).dropWhile isWordCh) with hws2def
          set t3 := List.dropWhile isSpaceRe
            ((t0.dropWhile isSpaceRe).dropWhile isWordCh) with ht3def
          obtain ⟨hm, hrest⟩ : m = pfx ++ (t0.takeWhile isSpaceRe ++
              (List.takeWhile isWordCh (t0.dropWhile isSpaceRe) ++
              (ws2.take k ++ (lazyTail (ws2.drop k ++ t3)).2.1))) ∧
              (lazyTail (ws2.drop k ++ t3)).2.2 = rest := by
            simp at h
            exact ⟨h.2.2.1.symm, h.2.2.2⟩
          constructor
          · subst hm
            rw [← hrest]
            have hlz : (lazyTail (ws2.drop k ++ t3)).2.1 ++
                (lazyTail (ws2.drop k ++ t3)).2.2 = ws2.drop k ++ t3 :=
              lazyTail_spec _
            calc pfx ++ (t0.takeWhile isSpaceRe ++
                  (List.takeWhile isWordCh (t0.dropWhile isSpaceRe) ++
                  (ws2.take k ++ (lazyTail (ws2.drop k ++ t3)).2.1))) ++
                  (lazyTail (ws2.drop k ++ t3)).2.2
                = pfx ++ (t0.takeWhile isSpaceRe ++
                  (List.takeWhile isWordCh (t0.dropWhile isSpaceRe) ++
                  (ws2.take k ++ ((lazyTail (ws2.drop k ++ t3)).2.1 ++
                  (lazyTail (ws2.drop k ++ t3)).2.2)))) := by
                  simp [List.append_assoc]
              _ = pfx ++ (t0.takeWhile isSpaceRe ++
                  (List.takeWhile isWordCh (t0.dropWhile isSpaceRe) ++
                  (ws2.take k ++ (ws2.drop k ++ t3)))) := by rw [hlz]
              _ = pfx ++ (t0.takeWhile isSpaceRe ++
                  (List.takeWhile isWordCh (t0.dropWhile isSpaceRe) ++
                  (ws2 ++ t3))) := by
                  rw [← List.append_assoc (ws2.take k), List.take_append_drop]
              _ = cs := by
                  rw [hws2def, ht3def, List.takeWhile_append_dropWhile,
                    List.takeWhile_append_dropWhile, List.takeWhile_append_dropWhile]
                  exact ht0
          · subst hm
            intro hnil
            have : pfx = [] := by
              cases pfx with
              | nil => rfl
              | cons a b => simp at hnil
            rw [this] at hlen
            simp at hlen

theorem matchAt_rest_short (cs n i m rest : List Char)
    (h : matchAt cs = some (n, i, m, rest)) : rest.length < cs.length := by
  obtain ⟨happ, hne⟩ := matchAt_spec cs n i m rest h
  have : m.length + rest.length = cs.length := by
    rw [← happ]; simp
  have hm : 0 < m.length := List.length_pos.mpr hne
  omega

theorem ptc_eq_subst (tools : ToolCalls) :
    ∀ fuel cs, ptcFuel tools fuel cs =
      ((scanFuel fuel cs).map (Seg.subst tools)).flatten := by
  intro fuel
  induction fuel with
  | zero =>
    intro cs
    simp [ptcFuel, scanFuel, Seg.subst, List.map_map]
    exact (flatten_map_singleton cs).symm
  | succ fuel ih =>
    intro cs
    cases h : matchAt cs with
    | some quad =>
      obtain ⟨n, i, m, rest⟩ := quad
      simp [ptcFuel, scanFuel, h, Seg.subst, ih]
    | none =>
      cases cs with
      | nil => simp [ptcFuel, scanFuel, h]
      | cons c rest => simp [ptcFuel, scanFuel, h, Seg.subst, ih]

theorem scan_orig :
    ∀ fuel cs, ((scanFuel fuel cs).map Seg.orig).flatten = cs := by
  intro fuel
  induction fuel with
  | zero =>
    intro cs
    simp [scanFuel, Seg.orig, List.map_map]
    exact flatten_map_singleton cs
  | succ fuel ih =>
    intro cs
    cases h : matchAt cs with
    | some quad =>
      obtain ⟨n, i, m, rest⟩ := quad
      have := (matchAt_spec cs n i m rest h).1
      simp [scanFuel, h, Seg.orig, ih, this]
    | none =>
      cases cs with
      | nil => simp [scanFuel, h]
      | cons c rest => simp [scanFuel, h, Seg.orig, ih]

theorem runNodes_cons_ok (n : Node) (rest : List Node) (cur : String)
    (h : (n cur).2 = none) :
    runNodes (n :: rest) cur = runNodes rest (n cur).1 := by
  cases hc : n cur with
  | mk out err =>
    rw [hc] at h
    simp only [] at h
    subst h
    simp [runNodes, hc]

theorem runNodes_cons_err (n : Node) (rest : List Node) (cur : String)
    (e : String) (h : (n cur).2 = some e) :
    runNodes (n :: rest) cur = ("", some e) := by
  cases hc : n cur with
  | mk out err =>
    rw [hc] at h
    simp only [] at h
    subst h
    simp [runNodes, hc]

/-! ## Claim theorems -/

/-- C1: a Flow built from nodes A, B, C executes them in declared order with
each output feeding the next node; when all succeed the result is
`C(B(A(s)))` with no error; when B fails, Run returns B's error unchanged
with empty output, and the result does not depend on C at all (C is never
executed). -/
theorem C1_flow_sequencing (A B C : Node) (s : String) :
    ((A s).2 = none → (B (A s).1).2 = none → (C (B (A s).1).1).2 = none →
      Flow.Run (NewFlow [A, B, C]) s = ((C (B (A s).1).1).1, none)) ∧
    (∀ e, (A s).2 = none → (B (A s).1).2 = some e →
      Flow.Run (NewFlow [A, B, C]) s = ("", some e) ∧
      ∀ C2 : Node, Flow.Run (NewFlow [A, B, C2]) s = ("", some e)) := by
  constructor
  · intro hA hB hC
    show runNodes [A, B, C] s = _
    rw [runNodes_cons_ok A _ _ hA, runNodes_cons_ok B _ _ hB,
      runNodes_cons_ok C _ _ hC]
    simp [runNodes]
  · intro e hA hB
    have hrun : ∀ C2 : Node, runNodes [A, B, C2] s = ("", some e) := by
      intro C2
      rw [runNodes_cons_ok A _ _ hA, runNodes_cons_err B _ _ _ hB]
    exact ⟨hrun C, hrun⟩

/-- C1 witness: the theorem applied to three concrete appending nodes and to
a failing middle node. -/
theorem C1_flow_sequencing_witness :
    Flow.Run (NewFlow [fun s => (s ++ "a", none), fun s => (s ++ "b", none),
      fun s => (s ++ "c", none)]) "x" = ("xabc", none) ∧
    Flow.Run (NewFlow [fun s => (s ++ "a", none), fun _ => ("", some "boom"),
      fun s => (s ++ "c", none)]) "x" = ("", some "boom") := by
  constructor
  · exact (C1_flow_sequencing (fun s => (s ++ "a", none))
      (fun s => (s ++ "b", none)) (fun s => (s ++ "c", none)) "x").1 rfl rfl rfl
  · exact (((C1_flow_sequencing (fun s => (s ++ "a", none))
      (fun _ => ("", some "boom")) (fun s => (s ++ "c", none)) "x").2
      "boom" rfl rfl).1)

/-- C10: a Flow constructed with an empty node list returns the initial input
unchanged with no error. -/
theorem C10_empty_flow_identity (s : String) :
    Flow.Run (NewFlow []) s = (s, none) := rfl

theorem retryGo_count_le (node : Nat → String → String × Option String)
    (input : String) : ∀ r a, (retryGo node input a r).2 ≤ r := by
  intro r
  induction r using Nat.strong_induction_on with
  | _ r ih =>
    intro a
    match r with
    | 0 => simp [retryGo]
    | 1 =>
      cases h : node a input with
      | mk out err => cases err <;> simp [retryGo, h]
    | k + 2 =>
      cases h : node a input with
      | mk out err =>
        cases err with
        | none => simp [retryGo, h]
        | some e =>
          have hrec := ih (k + 1) (by omega) (a + 1)
          simp only [retryGo, h]
          omega

theorem retryGo_first_success (node : Nat → String → String × Option String)
    (input : String) :
    ∀ j r a out, j < r →
      (∀ t, t < j → ((node (a + t) input).2).isSome) →
      node (a + j) input = (out, none) →
      retryGo node input a r = ((out, none), j + 1) := by
  intro j
  induction j with
  | zero =>
    intro r a out hjr _ hsucc
    rw [Nat.add_zero] at hsucc
    match r, hjr with
    | 1, _ => simp [retryGo, hsucc]
    | k + 2, _ => simp [retryGo, hsucc]
  | succ j ihj =>
    intro r a out hjr hfail hsucc
    match r, hjr with
    | k + 2, hjr =>
      have h0 : ((node a input).2).isSome := by
        have := hfail 0 (by omega)
        simpa using this
      cases h : node a input with
      | mk o err =>
        cases err with
        | none => rw [h] at h0; simp at h0
        | some e =>
          have hrec : retryGo node input (a + 1) (k + 1) = ((out, none), j + 1) := by
            apply ihj (k + 1) (a + 1) out (by omega)
            · intro t ht
              have := hfail (t + 1) (by omega)
              simpa [Nat.add_assoc, Nat.add_comm 1 t] using this
            · have : a + 1 + j = a + (j + 1) := by omega
              rw [this]
              exact hsucc
          simp only [retryGo, h, hrec]
    | 1, hjr => omega

theorem retryGo_all_fail (node : Nat → String → String × Option String)
    (input : String) :
    ∀ r a e, 1 ≤ r →
      (∀ t, t < r → ((node (a + t) input).2).isSome) →
      (node (a + (r - 1)) input).2 = some e →
      retryGo node input a r =
        (("", some ("retry node: failed after " ++ toString (a + r) ++
          " attempts, last error: " ++ e)), r) := by
  intro r
  induction r using Nat.strong_induction_on with
  | _ r ih =>
    intro a e hr hfail hlast
    match r, hr with
    | 1, _ =>
      rw [show (1 : Nat) - 1 = 0 from rfl, Nat.add_zero] at hlast
      cases h : node a input with
      | mk o err =>
        rw [h] at hlast
        simp only [] at hlast
        subst hlast
        simp [retryGo, h, Nat.add_comm a 1]
    | k + 2, _ =>
      have h0 : ((node a input).2).isSome := by
        have := hfail 0 (by omega)
        simpa using this
      cases h : node a input with
      | mk o err =>
        cases err with
        | none => rw [h] at h0; simp at h0
        | some e0 =>
          have hrec : retryGo node input (a + 1) (k + 1) =
              (("", some ("retry node: failed after " ++ toString ((a + 1) + (k + 1)) ++
                " attempts, last error: " ++ e)), k + 1) := by
            apply ih (k + 1) (by omega) (a + 1) e (by omega)
            · intro t ht
              have := hfail (t + 1) (by omega)
              simpa [Nat.add_assoc, Nat.add_comm 1 t] using this
            · have harith : a + 1 + (k + 1 - 1) = a + (k + 2 - 1) := by omega
              rw [harith]
              exact hlast
          have harith2 : (a + 1) + (k + 1) = a + (k + 2) := by omega
          rw [harith2] at hrec
          simp only [retryGo, h, hrec]

/-- C5: RetryNode.Execute invokes the wrapped node at most `MaxRetries+1`
times, returns the wrapped node's output immediately on the first success
(`j+1` invocations when attempt `j` is the first to succeed), and when every
attempt fails it performs exactly `MaxRetries+1` invocations and returns the
wrapping error naming the total attempt count and carrying the last underlying
failure. -/
theorem C5_retry_bounded_attempts (rn : RetryNode) (input : String) :
    (RetryNode.Execute rn input).2 ≤ rn.MaxRetries + 1 ∧
    (∀ j out, j ≤ rn.MaxRetries →
      (∀ t, t < j → ((rn.Node t input).2).isSome) →
      rn.Node j input = (out, none) →
      RetryNode.Execute rn input = ((out, none), j + 1)) ∧
    (∀ e, (∀ t, t ≤ rn.MaxRetries → ((rn.Node t input).2).isSome) →
      (rn.Node rn.MaxRetries input).2 = some e →
      RetryNode.Execute rn input =
        (("", some ("retry node: failed after " ++ toString (rn.MaxRetries + 1) ++
          " attempts, last error: " ++ e)), rn.MaxRetries + 1)) := by
  refine ⟨retryGo_count_le rn.Node input (rn.MaxRetries + 1) 0, ?_, ?_⟩
  · intro j out hj hfail hsucc
    have := retryGo_first_success rn.Node input j (rn.MaxRetries + 1) 0 out
      (by omega) (by intro t ht; simpa using hfail t ht) (by simpa using hsucc)
    exact this
  · intro e hfail hlast
    have := retryGo_all_fail rn.Node input (rn.MaxRetries + 1) 0 e (by omega)
      (by intro t ht; exact (by simpa using hfail t (by omega)))
      (by simpa using hlast)
    simpa using this

/-- C5 witness: a node failing on attempts 0 and 1 and succeeding on attempt 2
wrapped with MaxRetries = 2 succeeds after 3 invocations; an always-failing
node wrapped with MaxRetries = 2 exhausts exactly 3 invocations and returns
the wrapping error. -/
theorem C5_retry_bounded_attempts_witness :
    RetryNode.Execute ⟨fun i _ => if i < 2 then ("", some "e") else ("ok", none), 2⟩
      "in" = (("ok", none), 3) ∧
    RetryNode.Execute ⟨fun _ _ => ("", some "boom"), 2⟩ "in" =
      (("", some "retry node: failed after 3 attempts, last error: boom"), 3) := by
  constructor
  · exact (C5_retry_bounded_attempts
      ⟨fun i _ => if i < 2 then ("", some "e") else ("ok", none), 2⟩ "in").2.1
      2 "ok" (by decide) (by decide) rfl
  · exact (C5_retry_bounded_attempts ⟨fun _ _ => ("", some "boom"), 2⟩ "in").2.2
      "boom" (by intro t _; simp) rfl

theorem firstSomeErr_all_none :
    ∀ l : List (Option String), (∀ e ∈ l, e = none) → firstSomeErr l = none := by
  intro l h
  induction l with
  | nil => rfl
  | cons e rest ih =>
    have he := h e (List.mem_cons_self e rest)
    subst he
    exact ih (fun e2 h2 => h e2 (List.mem_cons_of_mem _ h2))

/-- C2 counterexample: a non-fail-fast ParallelNode whose single child fails
returns no error at all (so Execute does not "return an error exactly when
every child failed"), and with one failing and one succeeding child the
default merge output is `"\nx"`, not just the successful child's value `"x"`
(the failed slot's empty string is part of the merge input). -/
theorem C2_counterexample :
    ParallelNode.Execute ⟨[fun _ => ("", some "boom")], none, false⟩ "s" =
      ("", none) ∧
    (([fun _ => ("", some "boom")] : List Node).all
      (fun n => ((n "s").2).isSome)) = true ∧
    ParallelNode.Execute
      ⟨[fun _ => ("", some "boom"), fun _ => ("x", none)], none, false⟩ "s" =
      ("\nx", none) := by
  refine ⟨rfl, rfl, rfl⟩

/-- C2 (amended): a non-fail-fast ParallelNode with at least one child never
returns an error — individual child errors are only logged as warnings, even
when every child failed — and it always proceeds to the merge, whose input is
the per-child result strings in declaration order (a failed child contributes
whatever string it returned, the empty string in the typical case). -/
theorem C2_nonfailfast_never_errors (pn : ParallelNode) (input : String)
    (hff : pn.FailFast = false) (hne : pn.Nodes.isEmpty = false) :
    (pn.Execute input).2 = none ∧
    pn.Execute input = mergeResults pn (pn.Nodes.map (fun n => (n input).1)) := by
  have hexec : pn.Execute input =
      mergeResults pn (pn.Nodes.map (fun n => (n input).1)) := by
    unfold ParallelNode.Execute
    rw [hne, hff]
    simp
  refine ⟨?_, hexec⟩
  rw [hexec]
  unfold mergeResults
  cases pn.MergeFunc <;> simp

/-- C2 witness: the amended theorem applied to a concrete two-child
non-fail-fast node in which both children fail. -/
theorem C2_nonfailfast_never_errors_witness :
    (ParallelNode.Execute
      ⟨[fun _ => ("", some "e1"), fun _ => ("", some "e2")], none, false⟩
      "s").2 = none := by
  exact (C2_nonfailfast_never_errors
    ⟨[fun _ => ("", some "e1"), fun _ => ("", some "e2")], none, false⟩
    "s" rfl rfl).1

/-- C8: when every child of a ParallelNode succeeds and no custom merge
function is configured, Execute returns the children's outputs joined with a
newline separator in child declaration order (slot `i` holds the output of
child `i`), for either fail-fast setting. -/
theorem C8_default_merge_declaration_order (pn : ParallelNode) (input : String)
    (hmf : pn.MergeFunc = none) (hne : pn.Nodes.isEmpty = false)
    (hok : ∀ n ∈ pn.Nodes, (n input).2 = none) :
    pn.Execute input =
      (String.intercalate "\n" (pn.Nodes.map (fun n => (n input).1)), none) := by
  have herrs : firstSomeErr (pn.Nodes.map (fun n => (n input).2)) = none := by
    apply firstSomeErr_all_none
    intro e he
    obtain ⟨n, hn, rfl⟩ := List.mem_map.mp he
    exact hok n hn
  unfold ParallelNode.Execute
  rw [hne]
  cases hff : pn.FailFast with
  | false => simp [mergeResults, hmf]
  | true => simp [herrs, mergeResults, hmf]

/-- C8 witness: three children returning "1", "2", "3" with fail-fast
disabled merge to `"1\n2\n3"`. -/
theorem C8_default_merge_declaration_order_witness :
    ParallelNode.Execute
      ⟨[fun _ => ("1", none), fun _ => ("2", none), fun _ => ("3", none)],
        none, false⟩ "in" = ("1\n2\n3", none) := by
  have := C8_default_merge_declaration_order
    ⟨[fun _ => ("1", none), fun _ => ("2", none), fun _ => ("3", none)],
      none, false⟩ "in" rfl rfl (by decide)
  exact this.trans (by decide)

/-- C9: Manager.ExecuteTool fails with a not-found error for unregistered
names (manager unchanged); on tool failure it returns the failure unchanged
with the manager unchanged (no counter moves); on success it returns the
tool's output unchanged and increments exactly that tool's call counter,
leaving every other tool's counter as it was. -/
theorem C9_execute_tool_metrics (m : Manager) (name input : String) :
    (m.tools name = none →
      m.ExecuteTool name input = (("", some ("tool not found: " ++ name)), m)) ∧
    (∀ t e, m.tools name = some t → (t input).2 = some e →
      m.ExecuteTool name input = (("", some e), m)) ∧
    (∀ t, m.tools name = some t → (t input).2 = none →
      (m.ExecuteTool name input).1 = ((t input).1, none) ∧
      ((m.ExecuteTool name input).2).GetCallCount name = m.GetCallCount name + 1 ∧
      ∀ other, other ≠ name →
        ((m.ExecuteTool name input).2).GetCallCount other = m.GetCallCount other) := by
  refine ⟨?_, ?_, ?_⟩
  · intro h
    unfold Manager.ExecuteTool
    rw [h]
  · intro t e ht he
    cases hres : t input with
    | mk out err =>
      rw [hres] at he
      simp only [] at he
      subst he
      simp [Manager.ExecuteTool, ht, hres]
  · intro t ht he
    cases hres : t input with
    | mk out err =>
      rw [hres] at he
      simp only [] at he
      subst he
      refine ⟨?_, ?_, ?_⟩
      · simp [Manager.ExecuteTool, ht, hres]
      · simp [Manager.ExecuteTool, ht, hres, Manager.GetCallCount]
      · intro other hother
        simp [Manager.ExecuteTool, ht, hres, Manager.GetCallCount, hother]

/-- C9 witness: the theorem applied to a concrete manager holding a
succeeding tool and a failing tool. -/
theorem C9_execute_tool_metrics_witness :
    (Manager.ExecuteTool
      ⟨fun n => if n = "ok" then some (fun i => (i ++ "!", none))
        else if n = "bad" then some (fun _ => ("", some "err")) else none,
        fun _ => 0⟩ "missing" "x" =
      (("", some "tool not found: missing"), ⟨fun n =>
        if n = "ok" then some (fun i => (i ++ "!", none))
        else if n = "bad" then some (fun _ => ("", some "err")) else none,
        fun _ => 0⟩)) ∧
    ((Manager.ExecuteTool
      ⟨fun n => if n = "ok" then some (fun i => (i ++ "!", none))
        else if n = "bad" then some (fun _ => ("", some "err")) else none,
        fun _ => 0⟩ "ok" "x").2).GetCallCount "ok" = 1 ∧
    ((Manager.ExecuteTool
      ⟨fun n => if n = "ok" then some (fun i => (i ++ "!", none))
        else if n = "bad" then some (fun _ => ("", some "err")) else none,
        fun _ => 0⟩ "ok" "x").2).GetCallCount "bad" = 0 := by
  refine ⟨?_, ?_, ?_⟩
  · exact (C9_execute_tool_metrics
      ⟨fun n => if n = "ok" then some (fun i => (i ++ "!", none))
        else if n = "bad" then some (fun _ => ("", some "err")) else none,
        fun _ => 0⟩ "missing" "x").1 rfl
  · exact ((C9_execute_tool_metrics
      ⟨fun n => if n = "ok" then some (fun i => (i ++ "!", none))
        else if n = "bad" then some (fun _ => ("", some "err")) else none,
        fun _ => 0⟩ "ok" "x").2.2 (fun i => (i ++ "!", none)) rfl rfl).2.1
  · exact ((C9_execute_tool_metrics
      ⟨fun n => if n = "ok" then some (fun i => (i ++ "!", none))
        else if n = "bad" then some (fun _ => ("", some "err")) else none,
        fun _ => 0⟩ "ok" "x").2.2 (fun i => (i ++ "!", none)) rfl rfl).2.2
      "bad" (by decide)

theorem selectIndex_weighted_fallback (bn : BalancingNode)
    (hne : bn.Nodes.length ≠ 0) (hw : bn.Weights.length = bn.Nodes.length)
    (htot : bn.Weights.foldl (· + ·) 0 ≤ 0) (c : Nat) (draw : Int) :
    bn.selectIndex c draw = some (c % bn.Nodes.length, c + 1) := by
  unfold BalancingNode.selectIndex
  rw [if_neg hne, if_pos hw, if_pos htot]

theorem selectIndex_round_robin (bn : BalancingNode)
    (hne : bn.Nodes.length ≠ 0) (hw : bn.Weights.length ≠ bn.Nodes.length)
    (c : Nat) (draw : Int) :
    bn.selectIndex c draw = some (c % bn.Nodes.length, c + 1) := by
  unfold BalancingNode.selectIndex
  rw [if_neg hne, if_neg hw]

/-- C6: a BalancingNode whose weight count equals its node count but whose
total weight is non-positive does not fail: selection never consults the
random draw (the result is the same for every draw value), it falls back to
round-robin (index = counter mod node count, counter advanced), Execute
delegates to that child, and for 2 nodes six successive calls from a fresh
counter select indices 0,1,0,1,0,1. -/
theorem C6_nonpositive_total_weight_fallback (bn : BalancingNode) (c : Nat)
    (draw : Int) (input : String) (hne : bn.Nodes.length ≠ 0)
    (hw : bn.Weights.length = bn.Nodes.length)
    (htot : bn.Weights.foldl (· + ·) 0 ≤ 0) :
    bn.selectIndex c draw = some (c % bn.Nodes.length, c + 1) ∧
    bn.Execute c draw input =
      ((bn.Nodes.getD (c % bn.Nodes.length) dummyNode) input, c + 1) ∧
    (bn.Nodes.length = 2 → ∀ d1 d2 d3 d4 d5 d6 : Int,
      selectRun bn 0 [d1, d2, d3, d4, d5, d6] =
        [some 0, some 1, some 0, some 1, some 0, some 1]) := by
  have hsel := selectIndex_weighted_fallback bn hne hw htot
  refine ⟨hsel c draw, ?_, ?_⟩
  · unfold BalancingNode.Execute
    rw [hsel c draw]
  · intro h2 d1 d2 d3 d4 d5 d6
    simp only [selectRun, hsel, h2]

/-- C6 witness: the theorem applied to a concrete 2-node BalancingNode with
weights `[0, 0]`. -/
theorem C6_nonpositive_total_weight_fallback_witness :
    selectRun ⟨[fun s => ("L" ++ s, none), fun s => ("R" ++ s, none)], [0, 0]⟩
      0 [7, 7, 7, 7, 7, 7] =
      [some 0, some 1, some 0, some 1, some 0, some 1] := by
  exact (C6_nonpositive_total_weight_fallback
    ⟨[fun s => ("L" ++ s, none), fun s => ("R" ++ s, none)], [0, 0]⟩
    0 7 "x" (by decide) (by decide) (by decide)).2.2 rfl 7 7 7 7 7 7

/-- C7: a BalancingNode in round-robin mode (weight count different from node
count) selects index (counter before increment) mod node count and advances
the counter; with 3 nodes, six successive calls from a fresh counter select
indices 0,1,2,0,1,2 in order. -/
theorem C7_round_robin_selection (bn : BalancingNode) (c : Nat) (draw : Int)
    (input : String) (hne : bn.Nodes.length ≠ 0)
    (hw : bn.Weights.length ≠ bn.Nodes.length) :
    bn.selectIndex c draw = some (c % bn.Nodes.length, c + 1) ∧
    bn.Execute c draw input =
      ((bn.Nodes.getD (c % bn.Nodes.length) dummyNode) input, c + 1) ∧
    (bn.Nodes.length = 3 → ∀ d1 d2 d3 d4 d5 d6 : Int,
      selectRun bn 0 [d1, d2, d3, d4, d5, d6] =
        [some 0, some 1, some 2, some 0, some 1, some 2]) := by
  have hsel := selectIndex_round_robin bn hne hw
  refine ⟨hsel c draw, ?_, ?_⟩
  · unfold BalancingNode.Execute
    rw [hsel c draw]
  · intro h3 d1 d2 d3 d4 d5 d6
    simp only [selectRun, hsel, h3]

/-- C7 witness: the theorem applied to a concrete 3-node BalancingNode with
no weights configured. -/
theorem C7_round_robin_selection_witness :
    selectRun ⟨[fun s => ("a" ++ s, none), fun s => ("b" ++ s, none),
      fun s => ("c" ++ s, none)], []⟩ 0 [1, 2, 3, 4, 5, 6] =
      [some 0, some 1, some 2, some 0, some 1, some 2] := by
  exact (C7_round_robin_selection
    ⟨[fun s => ("a" ++ s, none), fun s => ("b" ++ s, none),
      fun s => ("c" ++ s, none)], []⟩ 0 1 "x" (by decide) (by decide)).2.2
    rfl 1 2 3 4 5 6

theorem subst_eq_orig_of_all_fail (tools : ToolCalls) :
    ∀ segs : List Seg, allDirsFail tools segs = true →
      segs.map (Seg.subst tools) = segs.map Seg.orig := by
  intro segs h
  induction segs with
  | nil => rfl
  | cons s rest ih =>
    rw [allDirsFail, List.all_cons, Bool.and_eq_true] at h
    obtain ⟨h1, h2⟩ := h
    have htail := ih (by rw [allDirsFail]; exact h2)
    cases s with
    | lit c => simp only [List.map_cons, Seg.subst, Seg.orig, htail]
    | dir n i m =>
      have hfailing : tools (String.mk n) (String.mk (goTrimSpace i)) = none := by
        cases hres : tools (String.mk n) (String.mk (goTrimSpace i)) with
        | none => rfl
        | some out =>
          exfalso
          simp [segIsDir, segResolves, hres] at h1
      simp only [List.map_cons, Seg.subst, Seg.orig, replaceDirective, hfailing,
        htail]

/-- C4: directive substitution is best-effort — a directive whose tool lookup
or execution fails is left verbatim in place and no error is raised; in
particular when every directive of the text fails to resolve, the output is
the original text unchanged. -/
theorem C4_substitution_best_effort (tools : ToolCalls) (text : String)
    (hfail : allDirsFail tools (scanSegs text) = true) :
    processToolCommands tools text = text := by
  unfold scanSegs at hfail
  unfold processToolCommands
  rw [ptc_eq_subst]
  rw [subst_eq_orig_of_all_fail tools _ hfail]
  rw [scan_orig]

/-- C4 witness: with no tool resolving, the spec's failing-directive example
text comes back byte-for-byte unchanged. -/
theorem C4_substitution_best_effort_witness :
    allDirsFail (fun _ _ => none)
      (scanSegs "Hello\nCALL TOOL: weather Paris") = true ∧
    processToolCommands (fun _ _ => none) "Hello\nCALL TOOL: weather Paris" =
      "Hello\nCALL TOOL: weather Paris" := by
  refine ⟨by decide, ?_⟩
  exact C4_substitution_best_effort (fun _ _ => none)
    "Hello\nCALL TOOL: weather Paris" (by decide)

/-- C3 counterexample: the text `"CALL TOOL: c 1\nCALL TOOL:"` contains one
directive of the form `CALL TOOL: <name> <input>` (the scan finds exactly
that one directive segment), its tool is registered and succeeds with the
non-empty output "4", yet the final output still contains the literal
`CALL TOOL:` substring — the trailing occurrence is not a well-formed
directive and is preserved verbatim, refuting the claimed conclusion. -/
theorem C3_counterexample :
    (scanSegs cexTextC3).any segIsDir = true ∧
    (scanSegs cexTextC3).all (segResolvesNonempty cexToolsC3) = true ∧
    processToolCommands cexToolsC3 cexTextC3 = "Tool Output (c): 4CALL TOOL:" ∧
    strContains (processToolCommands cexToolsC3 cexTextC3) "CALL TOOL:" =
      true := by
  refine ⟨by decide, by decide, by decide, by decide⟩

/-- C3 (amended): the multi-directive substitution rewrites the text segment
by segment: each matched directive (its captured input trimmed before
invocation) whose tool succeeds becomes `Tool Output (<name>): <output>`,
every other segment (literal text and failing directives) is reproduced
verbatim, and the segment decomposition reassembles exactly the original
text; the output may retain a literal `CALL TOOL:` only from occurrences that
are not well-formed matched directives (or from tool outputs); on the spec's
example the output contains both annotations and no remaining `CALL TOOL:`
substring. -/
theorem C3_multi_directive_substitution (tools : ToolCalls) (text : String) :
    processToolCommands tools text =
      String.mk (((scanSegs text).map (Seg.subst tools)).flatten) ∧
    String.mk (((scanSegs text).map Seg.orig).flatten) = text ∧
    processToolCommands specExampleTools
      "Hello\nCALL TOOL: calculator 2+2\nCALL TOOL: weather Paris" =
      "Hello\nTool Output (calculator): 4Tool Output (weather): Sunny" ∧
    strContains (processToolCommands specExampleTools
      "Hello\nCALL TOOL: calculator 2+2\nCALL TOOL: weather Paris")
      "Tool Output (calculator): 4" = true ∧
    strContains (processToolCommands specExampleTools
      "Hello\nCALL TOOL: calculator 2+2\nCALL TOOL: weather Paris")
      "Tool Output (weather): Sunny" = true ∧
    strContains (processToolCommands specExampleTools
      "Hello\nCALL TOOL: calculator 2+2\nCALL TOOL: weather Paris")
      "CALL TOOL:" = false := by
  refine ⟨?_, ?_, by decide, by decide, by decide, by decide⟩
  · unfold processToolCommands scanSegs
    rw [ptc_eq_subst]
  · unfold scanSegs
    rw [scan_orig]

end GK
